import Mathlib

/-!
Verification of the `going` Go library: sequential Map / Filter / Reduce /
Contains / IndexOf and the concurrent variants CMap / CFilter / CReduce.

Sequential functions are shallow embeddings of the single-pass loops in
`going.go`.  The concurrent variants spawn one goroutine per element and wait
on a `sync.WaitGroup`; we embed an execution as a fold over an explicit
schedule (the order in which the goroutines' shared-memory accesses land).
A CMap goroutine performs a single write to its own slot, so its unit of work
is one atomic event.  A CFilter or CReduce goroutine performs an
unsynchronized read-modify-write of the shared slice / accumulator, so its
unit of work is two events: a read that takes a private snapshot of the
shared state, and a write that stores a value computed from that snapshot.
-/

namespace Going

/-- Sequential `Map` from `going.go`: the loop fills `result[i] = f(v)` for
each element in order. -/
def Map {α β : Type} : List α → (α → β) → List β
  | [], _ => []
  | v :: rest, f => f v :: Map rest f

/-- Sequential `Filter` from `going.go`: the loop appends `v` whenever
`f v` is true, preserving input order. -/
def Filter {α : Type} : List α → (α → Bool) → List α
  | [], _ => []
  | v :: rest, f => if f v then v :: Filter rest f else Filter rest f

/-- Sequential `Reduce` from `going.go`: a left fold starting from
`initial`. -/
def Reduce {α ρ : Type} : List α → (ρ → α → ρ) → ρ → ρ
  | [], _, acc => acc
  | item :: rest, reducer, acc => Reduce rest reducer (reducer acc item)

/-- `Contains` from `going.go`: returns true as soon as an element equals the
target, false after exhausting the list. -/
def Contains {α : Type} [DecidableEq α] : List α → α → Bool
  | [], _ => false
  | v :: rest, target => if v = target then true else Contains rest target

/-- Loop of `IndexOf` from `going.go`, with `i` the index of the current
element: returns `(i, nil)` at the first match, `(-1, error)` when the loop
ends.  The Go `error` is embedded as `Option String` (`none` = `nil`). -/
def indexOfAux {α : Type} [DecidableEq α] : List α → α → Nat → Int × Option String
  | [], _, _ => (-1, some "element not found")
  | v :: rest, target, i =>
    if v = target then ((i : Int), none) else indexOfAux rest target (i + 1)

/-- `IndexOf` from `going.go`: the loop starts at index 0. -/
def IndexOf {α : Type} [DecidableEq α] (list : List α) (target : α) :
    Int × Option String :=
  indexOfAux list target 0

/-- `ForEach` from `going.go`: applies `f` to each element for its side
effect; in a pure embedding it returns the unit value. -/
def ForEach {α : Type} (list : List α) (f : α → Unit) : Unit :=
  match list with
  | [] => ()
  | v :: rest => match f v with
    | () => ForEach rest f

/-- Phases of a goroutine's unsynchronized read-modify-write of shared
state: the read takes a snapshot, the write stores a value computed from it. -/
inductive Phase : Type
  | read : Phase
  | write : Phase
deriving DecidableEq

/-- One goroutine of `CMap` landing its write: task `i` writes `f` of its
captured element into its own slot `i` of the shared result array.  Goroutine
`i` touches no shared state other than slot `i`, so its whole unit of work is
one event. -/
def mstep {α β : Type} (xs : List α) (f : α → β) (arr : List (Option β))
    (i : Nat) : List (Option β) :=
  match xs[i]? with
  | some v => arr.set i (some (f v))
  | none => arr

/-- Concurrent path of `CMap`: the pre-sized result array starts with every
slot unwritten (Go's zero value, embedded as `none`) and the goroutines'
writes land in the order given by `sched`. -/
def CMapRun {α β : Type} (xs : List α) (f : α → β) (sched : List Nat) :
    List (Option β) :=
  sched.foldl (mstep xs f) (List.replicate xs.length none)

/-- `CMap` from the concurrent source file: empty input short-circuits to
`nil` before the concurrent path; otherwise the goroutines run under
schedule `sched` and the barrier returns the filled array. -/
def CMap {α β : Type} (xs : List α) (f : α → β) (sched : List Nat) :
    List (Option β) :=
  if xs.length = 0 then [] else CMapRun xs f sched

/-- Shared state of a `CFilter` run: the shared growable `result` slice and,
for each task, the private snapshot its read has taken (if it has read). -/
structure FState (α : Type) : Type where
  result : List α
  snaps : List (Option (List α))

/-- One event of a `CFilter` goroutine.  Task `i`'s read snapshots the shared
slice; its write performs `append` on that stale snapshot — exactly the
unsynchronized `result = append(result, v)` of the source. -/
def fstep {α : Type} (xs : List α) (f : α → Bool) (s : FState α) :
    Nat × Phase → FState α
  | (i, Phase.read) => { s with snaps := s.snaps.set i (some s.result) }
  | (i, Phase.write) =>
    match s.snaps[i]?, xs[i]? with
    | some (some snap), some v =>
      if f v then { s with result := snap ++ [v] } else s
    | _, _ => s

/-- Concurrent path of `CFilter` under schedule `sched`. -/
def CFilterRun {α : Type} (xs : List α) (f : α → Bool)
    (sched : List (Nat × Phase)) : List α :=
  (sched.foldl (fstep xs f) ⟨[], List.replicate xs.length none⟩).result

/-- `CFilter` from the concurrent source file, with the empty-input
short-circuit. -/
def CFilter {α : Type} (xs : List α) (f : α → Bool)
    (sched : List (Nat × Phase)) : List α :=
  if xs.length = 0 then [] else CFilterRun xs f sched

/-- Shared state of a `CReduce` run: the shared accumulator and each task's
private snapshot of it. -/
structure RState (ρ : Type) : Type where
  acc : ρ
  snaps : List (Option ρ)

/-- One event of a `CReduce` goroutine.  Task `i`'s read snapshots the shared
accumulator; its write stores `reducer snapshot element` — exactly the
unsynchronized `acc = reducer(acc, v)` of the source. -/
def rstep {α ρ : Type} (xs : List α) (reducer : ρ → α → ρ) (s : RState ρ) :
    Nat × Phase → RState ρ
  | (i, Phase.read) => { s with snaps := s.snaps.set i (some s.acc) }
  | (i, Phase.write) =>
    match s.snaps[i]?, xs[i]? with
    | some (some a), some v => { s with acc := reducer a v }
    | _, _ => s

/-- Concurrent path of `CReduce` under schedule `sched`. -/
def CReduceRun {α ρ : Type} (xs : List α) (reducer : ρ → α → ρ) (init : ρ)
    (sched : List (Nat × Phase)) : ρ :=
  (sched.foldl (rstep xs reducer) ⟨init, List.replicate xs.length none⟩).acc

/-- `CReduce` from the concurrent source file, with the empty-input
short-circuit returning the initial accumulator. -/
def CReduce {α ρ : Type} (xs : List α) (reducer : ρ → α → ρ) (init : ρ)
    (sched : List (Nat × Phase)) : ρ :=
  if xs.length = 0 then init else CReduceRun xs reducer init sched

/-- Every read and write event of tasks `0 .. n-1`, once each. -/
def eventsOf : Nat → List (Nat × Phase)
  | 0 => []
  | n + 1 => eventsOf n ++ [(n, Phase.read), (n, Phase.write)]

/-- Schedules the Go runtime can actually produce: every task's read and
write occur exactly once, and each task reads before it writes. -/
abbrev ValidSched (n : Nat) (sched : List (Nat × Phase)) : Prop :=
  sched.Perm (eventsOf n) ∧
  ∀ i ∈ List.range n,
    sched.indexOf (i, Phase.read) < sched.indexOf (i, Phase.write)

/-- Mutual-exclusion semantics for `CFilter`'s shared container, as the
spec's required correction prescribes: each task's read-modify-write of the
shared slice is one indivisible critical section, and a run is a serial order
of these critical sections. -/
def CFilterAtomic {α : Type} (xs : List α) (f : α → Bool)
    (order : List Nat) : List α :=
  order.foldl
    (fun res i =>
      match xs[i]? with
      | some v => if f v then res ++ [v] else res
      | none => res) []

/-- Mutual-exclusion semantics for `CReduce`'s shared accumulator: each
task's read-modify-write is one indivisible critical section. -/
def CReduceAtomic {α ρ : Type} (xs : List α) (reducer : ρ → α → ρ) (init : ρ)
    (order : List Nat) : ρ :=
  order.foldl
    (fun a i =>
      match xs[i]? with
      | some v => reducer a v
      | none => a) init

theorem Map_length {α β : Type} (xs : List α) (f : α → β) :
    (Map xs f).length = xs.length := by
  induction xs with
  | nil => rfl
  | cons v rest ih => simpa [Map] using ih

theorem Map_getElem? {α β : Type} (xs : List α) (f : α → β) (i : Nat) :
    (Map xs f)[i]? = (xs[i]?).map f := by
  induction xs generalizing i with
  | nil => simp [Map]
  | cons v rest ih =>
    cases i with
    | zero => simp [Map]
    | succ j => simpa [Map] using ih j

theorem Contains_eq_true_iff {α : Type} [DecidableEq α] (xs : List α) (t : α) :
    Contains xs t = true ↔ t ∈ xs := by
  induction xs with
  | nil => simp [Contains]
  | cons v rest ih =>
    by_cases h : v = t
    · simp [Contains, h]
    · have h' : t ≠ v := fun ht => h ht.symm
      simp [Contains, h, h', ih]

theorem indexOfAux_of_not_mem {α : Type} [DecidableEq α] {xs : List α} {t : α}
    (h : t ∉ xs) (k : Nat) :
    indexOfAux xs t k = (-1, some "element not found") := by
  induction xs generalizing k with
  | nil => rfl
  | cons v rest ih =>
    have hv : v ≠ t := fun hv => h (hv ▸ List.mem_cons_self v rest)
    have hrest : t ∉ rest := fun hm => h (List.mem_cons_of_mem v hm)
    simp [indexOfAux, hv, ih hrest]

theorem indexOfAux_of_mem {α : Type} [DecidableEq α] {xs : List α} {t : α}
    (h : t ∈ xs) (k : Nat) :
    ∃ j : Nat, indexOfAux xs t k = (((k + j : Nat) : Int), none) ∧
      xs[j]? = some t ∧ ∀ m < j, xs[m]? ≠ some t := by
  induction xs generalizing k with
  | nil => cases h
  | cons v rest ih =>
    by_cases hv : v = t
    · refine ⟨0, by simp [indexOfAux, hv], by simp [hv], by omega⟩
    · have hrest : t ∈ rest := by
        cases List.mem_cons.mp h with
        | inl he => exact absurd he.symm hv
        | inr hm => exact hm
      obtain ⟨j, hj, hget, hmin⟩ := ih hrest (k + 1)
      refine ⟨j + 1, ?_, by simpa using hget, ?_⟩
      · have : k + 1 + j = k + (j + 1) := by omega
        simpa [indexOfAux, hv, this] using hj
      · intro m hm
        cases m with
        | zero => simpa using fun he => hv he
        | succ m' => simpa using hmin m' (by omega)

theorem IndexOf_err_iff {α : Type} [DecidableEq α] (xs : List α) (t : α) :
    (IndexOf xs t).2 = none ↔ t ∈ xs := by
  constructor
  · intro h
    by_contra hmem
    have := indexOfAux_of_not_mem hmem 0
    rw [IndexOf, this] at h
    cases h
  · intro hmem
    obtain ⟨j, hj, -, -⟩ := indexOfAux_of_mem hmem 0
    rw [IndexOf, hj]

/-- C8: the spec's example scenario: `Map([1,2,3,4,5], square) = [1,4,9,16,25]`,
`Filter([1,2,3,4,6], isOdd) = [1,3]`, `Reduce([1,2,3,4,5], sum, 0) = 15`,
`Contains([1,2,3,4,5], 3) = true`, and `Contains([1,2,3,4,5], 6) = false`. -/
theorem example_scenario :
    Map ([1, 2, 3, 4, 5] : List Int) (fun x => x * x) = [1, 4, 9, 16, 25] ∧
    Filter ([1, 2, 3, 4, 6] : List Int) (fun x => x % 2 == 1) = [1, 3] ∧
    Reduce ([1, 2, 3, 4, 5] : List Int) (fun acc item => acc + item) 0 = 15 ∧
    Contains ([1, 2, 3, 4, 5] : List Int) 3 = true ∧
    Contains ([1, 2, 3, 4, 5] : List Int) 6 = false := by
  refine ⟨?_, ?_, ?_, ?_, ?_⟩ <;> decide

/-- C6: sequential `Map` returns a list of the same length as the input whose
`i`-th element is `f` of the input's `i`-th element, for every index `i`. -/
theorem Map_pointwise {α β : Type} (xs : List α) (f : α → β) :
    (Map xs f).length = xs.length ∧
    ∀ i : Nat, (Map xs f)[i]? = (xs[i]?).map f :=
  ⟨Map_length xs f, Map_getElem? xs f⟩

theorem Map_pointwise_witness :
    (Map ([4, 5] : List Int) (fun x => x + 1))[1]? =
      ((([4, 5] : List Int))[1]?).map (fun x => x + 1) :=
  (Map_pointwise ([4, 5] : List Int) (fun x => x + 1)).2 1

/-- C7: `IndexOf` is the only operation with an error path.  On
`[1,2,3,4,5]` with target 3 it returns position 2 with no error; with target
6 it returns the not-found indicator; in general the error component is
`none` exactly when the target is present.  All other operations are embedded
as total Lean functions and cannot fail. -/
theorem IndexOf_error_path (α : Type) [DecidableEq α] (xs : List α) (t : α) :
    IndexOf ([1, 2, 3, 4, 5] : List Int) 3 = (2, none) ∧
    IndexOf ([1, 2, 3, 4, 5] : List Int) 6 = (-1, some "element not found") ∧
    ((IndexOf xs t).2 = none ↔ t ∈ xs) ∧
    ((IndexOf xs t).2 ≠ none →
      IndexOf xs t = (-1, some "element not found")) := by
  refine ⟨by decide, by decide, IndexOf_err_iff xs t, ?_⟩
  intro h
  have hmem : t ∉ xs := fun hm => h ((IndexOf_err_iff xs t).mpr hm)
  exact indexOfAux_of_not_mem hmem 0

theorem IndexOf_error_path_witness :
    IndexOf ([9] : List Int) 8 = (-1, some "element not found") :=
  (IndexOf_error_path Int ([9] : List Int) 8).2.2.2 (by decide)

/-- C9: `Contains` returns true exactly when `IndexOf` succeeds (returns a
`nil` error), and when `IndexOf` succeeds with index `i`, the list element at
position `i` is the target. -/
theorem Contains_IndexOf_agree (α : Type) [DecidableEq α] (xs : List α) (t : α) :
    (Contains xs t = true ↔ (IndexOf xs t).2 = none) ∧
    ∀ i : Int, IndexOf xs t = (i, none) → xs[i.toNat]? = some t := by
  constructor
  · exact (Contains_eq_true_iff xs t).trans (IndexOf_err_iff xs t).symm
  · intro i hi
    have hmem : t ∈ xs := by
      apply (IndexOf_err_iff xs t).mp
      rw [hi]
    obtain ⟨j, hj, hget, -⟩ := indexOfAux_of_mem hmem 0
    rw [IndexOf] at hi
    rw [hi] at hj
    have hij : i = ((j : Nat) : Int) := by
      have := congrArg Prod.fst hj
      simpa using this
    rw [hij]
    simpa using hget

theorem Contains_IndexOf_agree_witness :
    ([1, 2, 3] : List Int)[(1 : Int).toNat]? = some 2 :=
  (Contains_IndexOf_agree Int ([1, 2, 3] : List Int) 2).2 1 (by decide)

/-- C10: when the target occurs in the list (possibly several times),
`IndexOf` returns the smallest index at which it occurs: the returned index
is a valid position holding the target, and every earlier position holds a
different value. -/
theorem IndexOf_first_occurrence (α : Type) [DecidableEq α] (xs : List α)
    (t : α) (h : t ∈ xs) :
    (IndexOf xs t).2 = none ∧ 0 ≤ (IndexOf xs t).1 ∧
    xs[(IndexOf xs t).1.toNat]? = some t ∧
    ∀ m < (IndexOf xs t).1.toNat, xs[m]? ≠ some t := by
  obtain ⟨j, hj, hget, hmin⟩ := indexOfAux_of_mem h 0
  rw [IndexOf, hj]
  have hz : ((0 + j : Nat) : Int) = ((j : Nat) : Int) := by simp
  refine ⟨rfl, by positivity, ?_, ?_⟩
  · simpa using hget
  · intro m hm
    exact hmin m (by simpa using hm)

theorem IndexOf_first_occurrence_witness :
    ([5, 7, 7] : List Int)[(IndexOf ([5, 7, 7] : List Int) 7).1.toNat]? =
      some 7 :=
  (IndexOf_first_occurrence Int ([5, 7, 7] : List Int) 7 (by decide)).2.2.1

theorem mstep_of_none {α β : Type} {xs : List α} (f : α → β)
    (arr : List (Option β)) {i : Nat} (h : xs[i]? = none) :
    mstep xs f arr i = arr := by
  simp [mstep, h]

theorem mstep_of_some {α β : Type} {xs : List α} (f : α → β)
    (arr : List (Option β)) {i : Nat} {v : α} (h : xs[i]? = some v) :
    mstep xs f arr i = arr.set i (some (f v)) := by
  simp [mstep, h]

theorem foldl_mstep_length {α β : Type} (xs : List α) (f : α → β)
    (sched : List Nat) :
    ∀ init : List (Option β),
      (sched.foldl (mstep xs f) init).length = init.length := by
  induction sched with
  | nil => intro init; rfl
  | cons i rest ih =>
    intro init
    rw [List.foldl_cons, ih]
    cases hxi : xs[i]? with
    | none => rw [mstep_of_none f init hxi]
    | some v => rw [mstep_of_some f init hxi, List.length_set]

theorem foldl_mstep_getElem? {α β : Type} (xs : List α) (f : α → β)
    (sched : List Nat) :
    ∀ init : List (Option β), init.length = xs.length → ∀ j : Nat,
      (sched.foldl (mstep xs f) init)[j]? =
        if j ∈ sched ∧ j < xs.length
          then (xs[j]?).map (fun v => some (f v)) else init[j]? := by
  induction sched with
  | nil => intro init _ j; simp
  | cons i rest ih =>
    intro init hlen j
    have hlen' : (mstep xs f init i).length = xs.length := by
      cases hxi : xs[i]? with
      | none => rw [mstep_of_none f init hxi, hlen]
      | some v => rw [mstep_of_some f init hxi, List.length_set, hlen]
    rw [List.foldl_cons, ih (mstep xs f init i) hlen' j]
    by_cases hjr : j ∈ rest ∧ j < xs.length
    · rw [if_pos hjr, if_pos ⟨List.mem_cons_of_mem i hjr.1, hjr.2⟩]
    · rw [if_neg hjr]
      cases hxi : xs[i]? with
      | none =>
        have hge : xs.length ≤ i := by
          by_contra hlt
          push_neg at hlt
          rw [List.getElem?_eq_getElem hlt] at hxi
          cases hxi
        have hneg : ¬ (j ∈ i :: rest ∧ j < xs.length) := by
          rintro ⟨hm, hlt⟩
          rcases List.mem_cons.mp hm with he | hm'
          · omega
          · exact hjr ⟨hm', hlt⟩
        rw [mstep_of_none f init hxi, if_neg hneg]
      | some v =>
        have hi : i < xs.length := by
          rcases List.getElem?_eq_some.mp hxi with ⟨h, -⟩
          exact h
        rw [mstep_of_some f init hxi, List.getElem?_set]
        by_cases hij : i = j
        · subst hij
          rw [if_pos rfl, if_pos (show i < init.length by omega),
            if_pos ⟨List.mem_cons_self i rest, hi⟩, hxi]
          rfl
        · have hneg : ¬ (j ∈ i :: rest ∧ j < xs.length) := by
            rintro ⟨hm, hlt⟩
            rcases List.mem_cons.mp hm with he | hm'
            · exact hij he.symm
            · exact hjr ⟨hm', hlt⟩
          rw [if_neg hij, if_neg hneg]

theorem CMapRun_eq_of_perm {α β : Type} (xs : List α) (f : α → β)
    (sched : List Nat) (h : sched.Perm (List.range xs.length)) :
    CMapRun xs f sched = (Map xs f).map some := by
  apply List.ext_getElem?
  intro j
  rw [CMapRun, foldl_mstep_getElem? xs f sched (List.replicate xs.length none)
    (by simp) j]
  by_cases hj : j < xs.length
  · rw [if_pos ⟨h.mem_iff.mpr (List.mem_range.mpr hj), hj⟩,
      List.getElem?_map, Map_getElem?]
    cases xs[j]? <;> rfl
  · rw [if_neg (fun hc => hj hc.2), List.getElem?_replicate, if_neg hj]
    symm
    apply List.getElem?_eq_none
    rw [List.length_map, Map_length]
    omega

/-- C1: every schedule of `CMap`'s goroutine writes is a permutation of the
task indices, and under every such schedule `CMap` equals sequential `Map`
position-for-position: the result array (whose `Option` layer records Go's
zero-initialized slots, all written before the barrier releases) is exactly
`Map xs f` with every slot filled, so it has length `len(xs)` and slot `i`
holds `f(xs[i])` for every `i`, for every length including 0. -/
theorem CMap_refines_Map {α β : Type} (xs : List α) (f : α → β)
    (sched : List Nat) (h : sched.Perm (List.range xs.length)) :
    CMap xs f sched = (Map xs f).map some ∧
    (CMap xs f sched).length = xs.length ∧
    ∀ i : Nat, (CMap xs f sched)[i]? = (xs[i]?).map (fun v => some (f v)) := by
  have hmain : CMap xs f sched = (Map xs f).map some := by
    rw [CMap]
    by_cases h0 : xs.length = 0
    · rw [if_pos h0]
      cases xs with
      | nil => rfl
      | cons a l => simp at h0
    · rw [if_neg h0]
      exact CMapRun_eq_of_perm xs f sched h
  refine ⟨hmain, ?_, ?_⟩
  · rw [hmain, List.length_map, Map_length]
  · intro i
    rw [hmain, List.getElem?_map, Map_getElem?]
    cases xs[i]? <;> rfl

theorem CMap_refines_Map_witness :
    CMap ([5, 6] : List Int) (fun x => x * 2) [1, 0] =
      (Map ([5, 6] : List Int) (fun x => x * 2)).map some :=
  (CMap_refines_Map ([5, 6] : List Int) (fun x => x * 2) [1, 0] (by decide)).1

/-- C5: on empty input every concurrent variant takes the `len(list) == 0`
short-circuit branch and returns the identity result — an empty sequence for
`CMap` and `CFilter`, the initial accumulator for `CReduce` — without
entering the concurrent path, for every schedule (each equation holds by
unfolding the short-circuit branch alone). -/
theorem empty_input_short_circuits {α β ρ : Type} (f : α → β) (p : α → Bool)
    (reducer : ρ → α → ρ) (init : ρ) (s₁ : List Nat)
    (s₂ s₃ : List (Nat × Phase)) :
    CMap ([] : List α) f s₁ = [] ∧
    CFilter ([] : List α) p s₂ = [] ∧
    CReduce ([] : List α) reducer init s₃ = init :=
  ⟨rfl, rfl, rfl⟩

theorem empty_input_short_circuits_witness :
    CMap ([] : List Int) (fun x => x + 1) [] = [] ∧
    CFilter ([] : List Int) (fun _ => true) [] = [] ∧
    CReduce ([] : List Int) (fun acc item => acc + item) 0 [] = 0 :=
  empty_input_short_circuits (fun x : Int => x + 1)
    (fun _ : Int => true) (fun (acc : Int) (item : Int) => acc + item) 0 [] [] []

/-- C2 fails on the code: `CFilter` appends to the shared slice with no
mutual exclusion, so under the valid schedule that interleaves the two
read-modify-writes on input `[1, 2]` with the always-true predicate, task 1's
append overwrites task 0's and element 1 is dropped: the result `[2]` is not
a permutation (multiset rearrangement) of `Filter`'s `[1, 2]`. -/
theorem CFilter_race_drops_element :
    ValidSched 2
      [(0, Phase.read), (1, Phase.read), (0, Phase.write), (1, Phase.write)] ∧
    CFilter ([1, 2] : List Int) (fun _ => true)
      [(0, Phase.read), (1, Phase.read), (0, Phase.write), (1, Phase.write)] =
      [2] ∧
    Filter ([1, 2] : List Int) (fun _ => true) = [1, 2] ∧
    ¬ List.Perm ([2] : List Int) [1, 2] := by
  refine ⟨by decide, by decide, by decide, by decide⟩

/-- C3 fails on the code: integer addition is commutative and associative,
yet `CReduce` updates the shared accumulator with no synchronization, so
under the valid schedule where both tasks read the accumulator before either
writes, one update is lost: on `[1, 2]` with sum and initial value 0 the
concurrent result is 2 while sequential `Reduce` gives 3. -/
theorem CReduce_race_loses_update :
    (∀ a b : Int, a + b = b + a) ∧
    (∀ a b c : Int, a + b + c = a + (b + c)) ∧
    ValidSched 2
      [(0, Phase.read), (1, Phase.read), (0, Phase.write), (1, Phase.write)] ∧
    CReduce ([1, 2] : List Int) (fun acc item => acc + item) 0
      [(0, Phase.read), (1, Phase.read), (0, Phase.write), (1, Phase.write)] =
      2 ∧
    Reduce ([1, 2] : List Int) (fun acc item => acc + item) 0 = 3 :=
  ⟨Int.add_comm, Int.add_assoc, by decide, by decide, by decide⟩

/-- C4 fails on the code: neither `CFilter`'s shared output slice nor
`CReduce`'s shared accumulator is protected by mutual exclusion.  Under a
valid schedule two tasks are inside the read-modify-write simultaneously and
produce outcomes (`[2]`, respectively 2) that no serialization of atomic
critical sections can produce (the only mutually-excluded outcomes on
`[1, 2]` are `[1, 2]` / `[2, 1]` for the filter and 3 for the sum). -/
theorem shared_state_unprotected :
    ValidSched 2
      [(0, Phase.read), (1, Phase.read), (0, Phase.write), (1, Phase.write)] ∧
    CFilter ([1, 2] : List Int) (fun _ => true)
      [(0, Phase.read), (1, Phase.read), (0, Phase.write), (1, Phase.write)] =
      [2] ∧
    CFilterAtomic ([1, 2] : List Int) (fun _ => true) [0, 1] = [1, 2] ∧
    CFilterAtomic ([1, 2] : List Int) (fun _ => true) [1, 0] = [2, 1] ∧
    (([2] : List Int) ≠ [1, 2] ∧ ([2] : List Int) ≠ [2, 1]) ∧
    CReduce ([1, 2] : List Int) (fun acc item => acc + item) 0
      [(0, Phase.read), (1, Phase.read), (0, Phase.write), (1, Phase.write)] =
      2 ∧
    CReduceAtomic ([1, 2] : List Int) (fun acc item => acc + item) 0 [0, 1] =
      3 ∧
    CReduceAtomic ([1, 2] : List Int) (fun acc item => acc + item) 0 [1, 0] =
      3 ∧
    (2 : Int) ≠ 3 := by
  refine ⟨by decide, by decide, by decide, by decide, by decide, by decide,
    by decide, by decide, by decide⟩

end Going
